import Mathlib

/-!
Verification of the tiling/fetch/assemble pipeline of `iiif_downloader_gui.py`
against its natural-language design document.

The Python source is shallowly embedded below:
* strings are modelled as `List Char` (Python `str`),
* Python integers as `Int` (arbitrary precision, as in CPython),
* JSON dictionary fields as `Option JVal` (`none` = key absent),
* fallible Python code as `Except PyError _` (the constructor names the
  exception class the interpreter would raise),
* the two `while` loops of the region planner as a structurally recursive
  step-list generator guarded by positivity of the step (the source loop
  does not terminate when the step is non-positive; see `tile_steps`).
-/

namespace IIIF

/-! ## URL Normalizer (`normalize_url`, source lines 180-185)

```python

def normalize_url(self, url):
    url = re.split(r'[?#]', url)[0]
    if url.endswith('/info.json'):
        url = url[:-len('/info.json')]
    return url.rstrip('/')
```
-/

/-- Character kept by `re.split(r'[?#]', url)[0]`: everything before the first
query or fragment marker. -/
def keep_char (c : Char) : Bool := (c != '?') && (c != '#')

/-- Models `re.split(r'[?#]', url)[0]`: the prefix of the string up to (and
excluding) the first `?` or `#`. -/
def query_frag_cut (u : List Char) : List Char := u.takeWhile keep_char

/-- The descriptor-file suffix `'/info.json'`. -/
def info_suffix : List Char := '/' :: "info.json".toList

/-- Models `url[:-len('/info.json')] if url.endswith('/info.json') else url`. -/
def drop_info_suffix (u : List Char) : List Char :=
  if info_suffix.isSuffixOf u then u.take (u.length - info_suffix.length) else u

/-- Models Python `url.rstrip('/')`: remove every trailing `/`. -/
def rstrip_slash (u : List Char) : List Char :=
  (u.reverse.dropWhile (fun c => c == '/')).reverse

/-- The URL normalizer, source lines 180-185. -/
def normalize_url (u : List Char) : List Char :=
  rstrip_slash (drop_info_suffix (query_frag_cut u))

/-! ## Python value model

JSON values reaching the geometry code are numbers, strings, or arrays of
scale factors. A dictionary field is an `Option JVal`, `none` meaning the key
is absent (`dict.get` returns `None`). Array elements are modelled as
integers; Python membership `1 in l` compares elements by equality, and a
non-integer element is simply unequal to `1`, so this loses no behaviour the
geometry code distinguishes. -/

inductive JVal where
  | num (n : Int)
  | str (s : String)
  | list (l : List Int)
deriving DecidableEq

/-- The Python exception classes the embedded fragments can raise. The design
document's `DescriptorFormatError` corresponds to `keyError`, `valueError`
and `typeError` raised while reading descriptor fields; its
`DescriptorFetchError` corresponds to `requestError` raised by the HTTP
layer. -/
inductive PyError where
  | keyError
  | valueError
  | typeError
  | zeroDivisionError
  | requestError
deriving DecidableEq

/-- Python truthiness of a value: `0`, `''` and `[]` are falsy. -/
def pyTruthy : JVal → Bool
  | .num n => n != 0
  | .str s => s != ""
  | .list l => !l.isEmpty

/-- Python `a or b` where `a` is a dictionary lookup (`None` when the key is
absent, and `None` is falsy). -/
def pyOr (a : Option JVal) (b : JVal) : JVal :=
  match a with
  | some v => if pyTruthy v then v else b
  | none => b

/-- Decimal digits to a number: the value of a non-empty all-digit string,
`none` otherwise. -/
def parse_digits (cs : List Char) : Option Nat :=
  if cs = [] then none
  else if cs.all Char.isDigit then
    some (cs.foldl (fun acc c => acc * 10 + (c.toNat - '0'.toNat)) 0)
  else none

/-- Python `int(s)` on a string: an optional minus sign followed by decimal
digits (Python additionally tolerates surrounding whitespace and interior
underscores, spellings the geometry code never distinguishes), `None` when
the string is not numeric. -/
def py_int_of_str (s : String) : Option Int :=
  match s.toList with
  | '-' :: rest => (parse_digits rest).map fun n => -(n : Int)
  | cs => (parse_digits cs).map fun n => (n : Int)

/-- Python `int(v)`: identity on integers, strict parse on strings
(`ValueError` on a non-numeric string), `TypeError` on lists. -/
def pyInt : JVal → Except PyError Int
  | .num n => .ok n
  | .str s =>
    match py_int_of_str s with
    | some n => .ok n
    | none => .error .valueError
  | .list _ => .error .typeError

/-! ## Tile Geometry Resolver (`get_tile_spec`, source lines 195-218) -/

/-- One advertised tile-spec dictionary; each field is absent (`none`) or a
JSON value. -/
structure TileDict where
  width : Option JVal
  tileWidth : Option JVal
  height : Option JVal
  tileHeight : Option JVal
  overlap : Option JVal
  scaleFactors : Option JVal

/-- Models the selection loop of `get_tile_spec` (source lines 202-207):
`sfs = t.get('scaleFactors') or []` followed by `if 1 in sfs`. Evaluating
`1 in sfs` on a non-list value raises `TypeError`, exactly as in Python. -/
def first_scale1 : List TileDict → Except PyError (Option TileDict)
  | [] => .ok none
  | t :: ts =>
    match pyOr t.scaleFactors (.list []) with
    | .list l => if (1 : Int) ∈ l then .ok (some t) else first_scale1 ts
    | _ => .error .typeError

/-- Models source lines 210-213:
```python
tw = int(chosen.get('width') or chosen.get('tileWidth') or 512)
th = int(chosen.get('height') or chosen.get('tileHeight') or tw)
overlap = int(chosen.get('overlap') or 0)
return tw, th, overlap
``` -/
def resolve_dims (chosen : TileDict) : Except PyError (Int × Int × Int) :=
  match pyInt (pyOr chosen.width (pyOr chosen.tileWidth (.num 512))) with
  | .error e => .error e
  | .ok tw =>
    match pyInt (pyOr chosen.height (pyOr chosen.tileHeight (.num tw))) with
    | .error e => .error e
    | .ok th =>
      match pyInt (pyOr chosen.overlap (.num 0)) with
      | .error e => .error e
      | .ok ov => .ok (tw, th, ov)

/-- The tile geometry resolver, source lines 195-218. `tiles` is the list
bound by `tiles = info.get('tiles') or []`; `custom_tile` is
`None if self.tile_var.get() == "auto" else int(self.custom_tile_entry.get())`.
`if not custom_tile` treats both `None` and `0` as absent. -/
def get_tile_spec (tiles : List TileDict) (custom_tile : Option Int) :
    Except PyError (Int × Int × Int) :=
  match tiles with
  | [] =>
    let c : Int :=
      match custom_tile with
      | none => 1024
      | some n => if n = 0 then 1024 else n
    .ok (c, c, 0)
  | t0 :: _ =>
    match first_scale1 tiles with
    | .error e => .error e
    | .ok chosen? =>
      resolve_dims (match chosen? with | some t => t | none => t0)

/-! ## Descriptor dimension coercion (`fetch_info_json` result use,
source lines 355-358) -/

/-- The parsed descriptor fields the validation claim concerns. Only `width`
and `height` are read at the validation point. -/
structure InfoDict where
  width : Option JVal
  height : Option JVal

/-- Python subscript `info['key']`: `KeyError` when the key is absent. -/
def py_item (d : Option JVal) : Except PyError JVal :=
  match d with
  | none => .error .keyError
  | some v => .ok v

/-- Models source lines 357-358, the only inspection the run performs on the
required fields:
```python
width = int(info['width'])
height = int(info['height'])
``` -/
def get_dims (info : InfoDict) : Except PyError (Int × Int) :=
  match py_item info.width with
  | .error e => .error e
  | .ok wv =>
    match pyInt wv with
    | .error e => .error e
    | .ok w =>
      match py_item info.height with
      | .error e => .error e
      | .ok hv =>
        match pyInt hv with
        | .error e => .error e
        | .ok h => .ok (w, h)

/-! ## maxArea clamp (`respect_max_area`, source lines 220-229)

```python
max_area = info.get('maxArea')
if not max_area:
    return tile_w, tile_h
area = tile_w * tile_h
if area <= max_area:
    return tile_w, tile_h
scale = math.sqrt(max_area / area)
return max(1, int(tile_w * scale)), max(1, int(tile_h * scale))
```
-/

/-- Exact-real model of `int(t * math.sqrt(A / area))` for `A / area > 0`:
`int` truncates toward zero and `|t| * sqrt(A / area) = sqrt(t^2*|A|/|area|)`,
whose floor is `Nat.sqrt (t^2 * |A| / |area|)` under natural-number division
(for integers `k`, `k^2 <= p/q` iff `k^2 * q <= p` iff `k^2 <= p / q` rounded
down). The source computes the same quantity in double precision; its value
can differ from the exact real only if the float rounding crosses an integer
boundary. -/
def scaled_dim (A area t : Int) : Int :=
  let m : Nat := Nat.sqrt (t.natAbs * t.natAbs * A.natAbs / area.natAbs)
  if t < 0 then -(m : Int) else (m : Int)

/-- The maxArea clamp, source lines 220-229. `max_area` is
`info.get('maxArea')` modelled as an optional integer; `if not max_area`
treats both `None` and `0` as unset. When the clamp branch is reached Python
first evaluates `max_area / area` (raising `ZeroDivisionError` on a zero
area) and then `math.sqrt` (raising `ValueError` on a negative quotient). -/
def respect_max_area (max_area : Option Int) (tile_w tile_h : Int) :
    Except PyError (Int × Int) :=
  match max_area with
  | none => .ok (tile_w, tile_h)
  | some A =>
    if A = 0 then .ok (tile_w, tile_h)
    else
      let area := tile_w * tile_h
      if area ≤ A then .ok (tile_w, tile_h)
      else if area = 0 then .error .zeroDivisionError
      else if A * area < 0 then .error .valueError
      else .ok (max 1 (scaled_dim A area tile_w), max 1 (scaled_dim A area tile_h))

/-! ## Region Planner (`build_region_urls`, source lines 231-252)

Both `while` loops of the planner have the same shape:
```python
y = 0
while y < height:
    h = min(tile_h, height - y)
    ...
    y += tile_h
```
`tile_steps limit step start` is the list of `(origin, extent)` pairs such a
loop produces. The Python loop runs forever when `step <= 0` (the origin
never reaches `limit`), so the recursion is additionally guarded by
`0 < step`; every theorem below that speaks about the loop assumes a
positive step, matching the guard. -/

def tile_steps (limit step : Nat) (start : Nat) : List (Nat × Nat) :=
  if _h : 0 < step ∧ start < limit then
    (start, min step (limit - start)) :: tile_steps limit step (start + step)
  else []
termination_by limit - start
decreasing_by omega

/-- Ceiling division `(a + b - 1) / b`, the number of iterations of one
planner loop over an axis of length `a` with step `b > 0`. -/
def ceil_div (a b : Nat) : Nat := (a + b - 1) / b

/-- Models source line 248: the region-request URL
`f"{service_url}/{x},{y},{w},{h}/full/0/default.jpg"` (with
`quality = 'default'`, `ext = 'jpg'`). -/
def region_url (service_url : String) (x y w h : Nat) : String :=
  service_url ++ "/" ++ toString x ++ "," ++ toString y ++ "," ++ toString w
    ++ "," ++ toString h ++ "/full/0/default.jpg"

/-- The region planner, source lines 231-252: for each vertical step (outer
loop) and each horizontal step (inner loop), one `(url, (x, y, w, h))` pair,
rows first (row-major). -/
def build_region_urls (service_url : String) (width height tile_w tile_h : Nat) :
    List (String × Nat × Nat × Nat × Nat) :=
  (tile_steps height tile_h 0).flatMap fun yh =>
    (tile_steps width tile_w 0).map fun xw =>
      (region_url service_url xw.1 yh.1 xw.2 yh.2, (xw.1, yh.1, xw.2, yh.2))

/-- A box `(x, y, w, h)` as produced by the planner. -/
abbrev Box := Nat × Nat × Nat × Nat

/-- Pixel `(px, py)` lies inside box `(x, y, w, h)`. -/
def in_region (b : Box) (px py : Nat) : Prop :=
  b.1 ≤ px ∧ px < b.1 + b.2.2.1 ∧ b.2.1 ≤ py ∧ py < b.2.1 + b.2.2.2

/-! ## Drain loop of `download_image` (source lines 397-431)

```python
for future in concurrent.futures.as_completed(future_to_url):
    if self.cancel_flag:
        self.log_message("Download cancelled by user")
        break
    url, (x, y, w, h) = future_to_url[future]
    try:
        img = future.result()
        ...
        canvas.paste(img, (x, y), img)
        downloaded += 1
        ...
    except Exception as e:
        self.log_message(f"Error downloading tile {url}: {str(e)}")
        if downloaded == 0:  # If first tile fails, abort
            raise
if self.cancel_flag:
    ...
    return
```
The loop is the single consumer: completed futures arrive as a sequence of
`TileResult`s; `flag i` is the value of `self.cancel_flag` read at drain
position `i` (the flag is only ever set during a run, never cleared, so once
a check reads `true` every later check also reads `true`; the model folds the
post-loop re-check of a set flag into the `break`). After a full drain with
the flag unset, control reaches the encode step (`Outcome.saved`); a
re-raised tile failure lands in the outer `except` handler
(`Outcome.failed`). -/

/-- The value a completed future delivers for its region: a decoded tile
(`ok`) or a raised exception (`err`). -/
inductive TileResult where
  | ok (box : Box)
  | err (box : Box) (msg : String)

/-- The consumer-side mutable state: which boxes have been pasted onto the
canvas, in paste order, and the `downloaded` success counter. -/
structure LoopState where
  pasted : List Box
  downloaded : Nat
deriving DecidableEq

/-- The terminal report of one run: the image is saved, the run is cancelled,
or the run fails with an error message. -/
inductive Outcome where
  | saved
  | cancelled
  | failed (msg : String)
deriving DecidableEq

/-- The drain loop, source lines 397-431, as a fold over the completion
sequence. -/
def drain_loop (flag : Nat → Bool) (results : List TileResult) (i : Nat)
    (st : LoopState) : LoopState × Outcome :=
  match results with
  | [] => if flag i then (st, .cancelled) else (st, .saved)
  | r :: rest =>
    if flag i then (st, .cancelled)
    else
      match r with
      | .ok box =>
        drain_loop flag rest (i + 1) ⟨st.pasted ++ [box], st.downloaded + 1⟩
      | .err _ e =>
        if st.downloaded = 0 then (st, .failed e)
        else drain_loop flag rest (i + 1) st

/-! ## UI run control (source lines 260-284)

```python

def start_download(self):
    if not self.validate_inputs():
        return
    if self.is_downloading:
        messagebox.showwarning(...)
        return
    self.is_downloading = True
    self.cancel_flag = False
    ...
    thread.start()

def cancel_download(self):
    self.cancel_flag = True
```
`valid` stands for the result of `validate_inputs()`; the pair's second
component records whether a worker thread was spawned. -/

structure AppState where
  is_downloading : Bool
  cancel_flag : Bool
deriving DecidableEq

def start_download (valid : Bool) (s : AppState) : AppState × Bool :=
  if valid = false then (s, false)
  else if s.is_downloading then (s, false)
  else ({ is_downloading := true, cancel_flag := false }, true)

def cancel_download (s : AppState) : AppState :=
  { s with cancel_flag := true }

/-- The `finally` block of `download_image` (source line 476): the worker
marks the run finished. -/
def finish_run (s : AppState) : AppState :=
  { s with is_downloading := false }

/-! ## Auxiliary predicates used by the theorems -/

/-- The exact scaled dimension on natural inputs:
`⌊t * sqrt (A / area)⌋ = Nat.sqrt (t^2 * A / area)`. -/
def nat_scaled (A area t : Nat) : Nat := Nat.sqrt (t * t * A / area)

/-- The scale-factor list `sfs = t.get('scaleFactors') or []` when evaluating
`1 in sfs` does not raise (`none` when the field holds a truthy non-list, on
which Python raises `TypeError`). -/
def sfListOf (t : TileDict) : Option (List Int) :=
  match pyOr t.scaleFactors (.list []) with
  | .list l => some l
  | _ => none

/-- Typing discipline on one tile spec: each present numeric field holds a
number, and a present `scaleFactors` holds an array. -/
def WTile (t : TileDict) : Prop :=
  (∀ v, t.width = some v → ∃ n, v = JVal.num n) ∧
  (∀ v, t.tileWidth = some v → ∃ n, v = JVal.num n) ∧
  (∀ v, t.height = some v → ∃ n, v = JVal.num n) ∧
  (∀ v, t.tileHeight = some v → ∃ n, v = JVal.num n) ∧
  (∀ v, t.overlap = some v → ∃ n, v = JVal.num n) ∧
  (∀ v, t.scaleFactors = some v → ∃ l, v = JVal.list l)

/-- The full correctness property of the Region Planner: row-major grid form,
region count, unique coverage of every in-image pixel, containment of every
covered pixel in the image, pairwise disjointness, and edge-clipped extents. -/
def region_planner_spec (s : String) (width height tile_w tile_h : Nat) : Prop :=
  (build_region_urls s width height tile_w tile_h =
    (List.range (ceil_div height tile_h)).flatMap fun j =>
      (List.range (ceil_div width tile_w)).map fun i =>
        (region_url s (i * tile_w) (j * tile_h)
           (min tile_w (width - i * tile_w)) (min tile_h (height - j * tile_h)),
         (i * tile_w, j * tile_h, min tile_w (width - i * tile_w),
          min tile_h (height - j * tile_h))))
  ∧ (build_region_urls s width height tile_w tile_h).length
      = ceil_div width tile_w * ceil_div height tile_h
  ∧ (∀ px py, px < width → py < height →
       ∃! r, r ∈ build_region_urls s width height tile_w tile_h ∧ in_region r.2 px py)
  ∧ (∀ r ∈ build_region_urls s width height tile_w tile_h,
       ∀ px py, in_region r.2 px py → px < width ∧ py < height)
  ∧ (∀ r1 ∈ build_region_urls s width height tile_w tile_h,
     ∀ r2 ∈ build_region_urls s width height tile_w tile_h,
       r1 ≠ r2 → ∀ px py, ¬ (in_region r1.2 px py ∧ in_region r2.2 px py))
  ∧ (∀ r ∈ build_region_urls s width height tile_w tile_h,
       r.2.2.2.1 = min tile_w (width - r.2.1)
       ∧ r.2.2.2.2 = min tile_h (height - r.2.2.1))

/-! ## Supporting lemmas -/

theorem mem_takeWhile_pred {α : Type} (p : α → Bool) :
    ∀ (l : List α) (a : α), a ∈ l.takeWhile p → p a = true ∧ a ∈ l := by
  intro l
  induction l with
  | nil => intro a h; simp [List.takeWhile] at h
  | cons x xs ih =>
    intro a h
    rw [List.takeWhile_cons] at h
    by_cases hx : p x = true
    · rw [if_pos hx] at h
      rcases List.mem_cons.mp h with h1 | h2
      · subst h1; exact ⟨hx, List.mem_cons_self _ _⟩
      · rcases ih a h2 with ⟨hp, hm⟩
        exact ⟨hp, List.mem_cons_of_mem _ hm⟩
    · rw [if_neg hx] at h
      simp at h

theorem takeWhile_eq_self_of_all {α : Type} (p : α → Bool) :
    ∀ (l : List α), (∀ a ∈ l, p a = true) → l.takeWhile p = l := by
  intro l
  induction l with
  | nil => intro _; rfl
  | cons x xs ih =>
    intro h
    rw [List.takeWhile_cons, if_pos (h x (List.mem_cons_self _ _))]
    rw [ih fun a ha => h a (List.mem_cons_of_mem _ ha)]

theorem mem_of_mem_dropWhile {α : Type} (p : α → Bool) :
    ∀ (l : List α) (a : α), a ∈ l.dropWhile p → a ∈ l := by
  intro l
  induction l with
  | nil => intro a h; simp [List.dropWhile] at h
  | cons x xs ih =>
    intro a h
    rw [List.dropWhile_cons] at h
    by_cases hx : p x = true
    · rw [if_pos hx] at h
      exact List.mem_cons_of_mem _ (ih a h)
    · rw [if_neg hx] at h
      exact h

theorem head?_dropWhile_neg {α : Type} (p : α → Bool) :
    ∀ (l : List α) (a : α), (l.dropWhile p).head? = some a → p a = false := by
  intro l
  induction l with
  | nil => intro a h; simp [List.dropWhile] at h
  | cons x xs ih =>
    intro a h
    rw [List.dropWhile_cons] at h
    by_cases hx : p x = true
    · rw [if_pos hx] at h
      exact ih a h
    · rw [if_neg hx] at h
      simp only [List.head?_cons, Option.some.injEq] at h
      subst h
      exact Bool.eq_false_iff.mpr hx

theorem dropWhile_eq_self_of_head {α : Type} (p : α → Bool) (l : List α)
    (h : ∀ a, l.head? = some a → p a = false) : l.dropWhile p = l := by
  cases l with
  | nil => rfl
  | cons x xs =>
    rw [List.dropWhile_cons, if_neg]
    simp [h x rfl]

theorem dropWhile_idem {α : Type} (p : α → Bool) (l : List α) :
    (l.dropWhile p).dropWhile p = l.dropWhile p :=
  dropWhile_eq_self_of_head p _ fun a ha => head?_dropWhile_neg p l a ha

theorem mem_rstrip_slash (u : List Char) (a : Char) (h : a ∈ rstrip_slash u) :
    a ∈ u := by
  unfold rstrip_slash at h
  rw [List.mem_reverse] at h
  exact List.mem_reverse.mp (mem_of_mem_dropWhile _ _ _ h)

theorem mem_drop_info_suffix (u : List Char) (a : Char)
    (h : a ∈ drop_info_suffix u) : a ∈ u := by
  unfold drop_info_suffix at h
  by_cases hs : info_suffix.isSuffixOf u
  · rw [if_pos hs] at h
    exact List.mem_of_mem_take h
  · rwa [if_neg hs] at h

/-- Every character of a normalized URL survives the query/fragment cut, so it
is neither `?` nor `#`. -/
theorem mem_normalize_keep (u : List Char) (a : Char)
    (h : a ∈ normalize_url u) : keep_char a = true := by
  unfold normalize_url at h
  exact (mem_takeWhile_pred keep_char u a
    (mem_drop_info_suffix _ a (mem_rstrip_slash _ a h))).1

/-- The normalizer output never ends in a path separator. -/
theorem normalize_url_getLast? (u : List Char) :
    (normalize_url u).getLast? ≠ some '/' := by
  intro h
  unfold normalize_url rstrip_slash at h
  rw [List.getLast?_reverse] at h
  have := head?_dropWhile_neg (fun c => c == '/') _ _ h
  simp at this

theorem rstrip_slash_idem (u : List Char) :
    rstrip_slash (rstrip_slash u) = rstrip_slash u := by
  unfold rstrip_slash
  rw [List.reverse_reverse, dropWhile_idem]

/-- A normalized URL contains no `?` or `#`, so cutting at the first query or
fragment marker leaves it unchanged. -/
theorem query_frag_cut_normalize (u : List Char) :
    query_frag_cut (normalize_url u) = normalize_url u :=
  takeWhile_eq_self_of_all keep_char _ fun a ha => mem_normalize_keep u a ha

/-- Conditional idempotence of the normalizer: if one pass does not leave a
fresh trailing `/info.json`, a second pass is the identity. -/
theorem normalize_url_idem_of_no_suffix (u : List Char)
    (h : info_suffix.isSuffixOf (normalize_url u) = false) :
    normalize_url (normalize_url u) = normalize_url u := by
  conv_lhs => rw [normalize_url, query_frag_cut_normalize]
  rw [drop_info_suffix, if_neg (by simp [h])]
  conv_lhs => rw [normalize_url]
  exact rstrip_slash_idem _

theorem tile_steps_cons {limit step start : Nat} (hs : 0 < step)
    (hlt : start < limit) :
    tile_steps limit step start =
      (start, min step (limit - start)) :: tile_steps limit step (start + step) := by
  rw [tile_steps]
  rw [dif_pos ⟨hs, hlt⟩]

theorem tile_steps_nil {limit step start : Nat} (h : ¬ start < limit) :
    tile_steps limit step start = [] := by
  rw [tile_steps]
  rw [dif_neg]
  intro hc
  exact h hc.2

theorem lt_ceil_div_iff {b : Nat} (hb : 0 < b) (i a : Nat) :
    i < ceil_div a b ↔ i * b < a := by
  unfold ceil_div
  rw [show i < (a + b - 1) / b ↔ i + 1 ≤ (a + b - 1) / b from Iff.rfl]
  rw [Nat.le_div_iff_mul_le hb, Nat.add_mul, Nat.one_mul]
  omega

theorem ceil_div_pos_eq {m b : Nat} (hb : 0 < b) (hm : 0 < m) :
    ceil_div m b = (m - 1) / b + 1 := by
  unfold ceil_div
  have h1 : m + b - 1 = (m - 1) + b := by omega
  rw [h1, Nat.add_div_right _ hb]

theorem ceil_div_sub_step {m b : Nat} (hb : 0 < b) (hm : 0 < m) :
    ceil_div (m - b) b = (m - 1) / b := by
  by_cases hc : m ≤ b
  · have h0 : m - b = 0 := by omega
    rw [h0]
    have : ceil_div 0 b = 0 := by
      unfold ceil_div
      exact Nat.div_eq_of_lt (by omega)
    rw [this]
    exact (Nat.div_eq_of_lt (by omega)).symm
  · rw [ceil_div_pos_eq hb (by omega)]
    have h2 : m - 1 = (m - b - 1) + b := by omega
    rw [h2, Nat.add_div_right _ hb]

/-- Closed form of one planner loop: starting at `start` with positive step,
the loop emits one `(origin, extent)` pair per index
`i < ceil((limit - start) / step)`, the origin advancing by `step` each time
and the extent being `min step (limit - origin)`. -/
theorem tile_steps_eq {step : Nat} (hs : 0 < step) (limit start : Nat) :
    tile_steps limit step start =
      (List.range (ceil_div (limit - start) step)).map
        (fun i => (start + i * step, min step (limit - (start + i * step)))) := by
  by_cases hlt : start < limit
  · have hrec := tile_steps_eq hs limit (start + step)
    rw [tile_steps_cons hs hlt, hrec]
    have hm : 0 < limit - start := by omega
    have hms : limit - (start + step) = limit - start - step := by omega
    rw [hms, ceil_div_sub_step hs hm, ceil_div_pos_eq hs hm,
      List.range_succ_eq_map, List.map_cons, List.map_map]
    congr 1
    · simp
    · have hfe : ∀ i : Nat,
          start + step + i * step = start + Nat.succ i * step := by
        intro i
        rw [Nat.succ_mul]
        omega
      simp only [Function.comp_def, hfe]
  · rw [tile_steps_nil hlt]
    have h0 : limit - start = 0 := by omega
    rw [h0]
    have hc : ceil_div 0 step = 0 := by
      unfold ceil_div
      exact Nat.div_eq_of_lt (by omega)
    rw [hc]
    rfl
termination_by limit - start
decreasing_by omega

theorem length_flatMap_const {α β : Type} (f : α → List β) (k : Nat) :
    ∀ l : List α, (∀ a ∈ l, (f a).length = k) →
      (l.flatMap f).length = l.length * k := by
  intro l
  induction l with
  | nil => intro _; simp
  | cons x xs ih =>
    intro h
    rw [List.flatMap_cons, List.length_append, h x (List.mem_cons_self _ _),
      ih fun a ha => h a (List.mem_cons_of_mem _ ha), List.length_cons]
    ring

/-- Row-major grid form of the region planner: for positive tile steps, the
produced sequence is exactly, in order, row `j` for
`j < ceil(height / tile_h)` and within each row column `i` for
`i < ceil(width / tile_w)`, with origin `(i * tile_w, j * tile_h)` and extent
clipped to the image edge. -/
theorem build_region_urls_eq (s : String) (width height tile_w tile_h : Nat)
    (hw : 0 < tile_w) (hh : 0 < tile_h) :
    build_region_urls s width height tile_w tile_h =
      (List.range (ceil_div height tile_h)).flatMap fun j =>
        (List.range (ceil_div width tile_w)).map fun i =>
          (region_url s (i * tile_w) (j * tile_h)
             (min tile_w (width - i * tile_w)) (min tile_h (height - j * tile_h)),
           (i * tile_w, j * tile_h, min tile_w (width - i * tile_w),
            min tile_h (height - j * tile_h))) := by
  unfold build_region_urls
  rw [tile_steps_eq hw width 0, tile_steps_eq hh height 0]
  simp only [Nat.zero_add, Nat.sub_zero]
  rw [List.flatMap_map]
  simp only [List.map_map, Function.comp_def]

theorem div_mul_interval {b : Nat} (hb : 0 < b) (p : Nat) :
    b * (p / b) ≤ p ∧ p < b * (p / b) + b := by
  have h1 := Nat.div_add_mod p b
  have h2 := Nat.mod_lt p hb
  omega

theorem eq_div_of_interval {b : Nat} (hb : 0 < b) {i p : Nat}
    (h1 : i * b ≤ p) (h2 : p < i * b + b) : i = p / b := by
  have ha : i ≤ p / b := (Nat.le_div_iff_mul_le hb).mpr h1
  have hc : p / b < i + 1 := by
    rw [Nat.div_lt_iff_lt_mul hb]
    calc p < i * b + b := h2
    _ = (i + 1) * b := by ring
  omega

theorem drain_loop_nil (flag : Nat → Bool) (i : Nat) (st : LoopState) :
    drain_loop flag [] i st = if flag i then (st, .cancelled) else (st, .saved) :=
  rfl

theorem drain_loop_flagged {flag : Nat → Bool} {i : Nat} (r : TileResult)
    (rest : List TileResult) (st : LoopState) (hf : flag i = true) :
    drain_loop flag (r :: rest) i st = (st, .cancelled) := by
  rw [drain_loop.eq_def]
  simp only [hf, if_true]

theorem drain_loop_ok {flag : Nat → Bool} {i : Nat} (box : Box)
    (rest : List TileResult) (st : LoopState) (hf : flag i = false) :
    drain_loop flag (.ok box :: rest) i st =
      drain_loop flag rest (i + 1) ⟨st.pasted ++ [box], st.downloaded + 1⟩ := by
  rw [drain_loop.eq_def]
  simp only [hf, Bool.false_eq_true, if_false]

theorem drain_loop_err {flag : Nat → Bool} {i : Nat} (box : Box) (e : String)
    (rest : List TileResult) (st : LoopState) (hf : flag i = false) :
    drain_loop flag (.err box e :: rest) i st =
      if st.downloaded = 0 then (st, .failed e)
      else drain_loop flag rest (i + 1) st := by
  rw [drain_loop.eq_def]
  simp only [hf, Bool.false_eq_true, if_false]

/-- Everything ever pasted during a drain either was already on the canvas or
is the payload of an `ok` result of the drained sequence: a failed region is
never pasted. -/
theorem drain_loop_pasted_sub (flag : Nat → Bool) :
    ∀ (results : List TileResult) (i : Nat) (st : LoopState) (b : Box),
      b ∈ (drain_loop flag results i st).1.pasted →
        b ∈ st.pasted ∨ TileResult.ok b ∈ results := by
  intro results
  induction results with
  | nil =>
    intro i st b h
    rw [drain_loop_nil] at h
    by_cases hf : flag i = true
    · rw [if_pos hf] at h
      exact Or.inl h
    · rw [if_neg hf] at h
      exact Or.inl h
  | cons r rest ih =>
    intro i st b h
    by_cases hf : flag i = true
    · rw [drain_loop_flagged r rest st hf] at h
      exact Or.inl h
    · have hf2 : flag i = false := by simp [hf]
      cases r with
      | ok box =>
        rw [drain_loop_ok box rest st hf2] at h
        rcases ih (i + 1) _ b h with h1 | h2
        · rcases List.mem_append.mp h1 with h3 | h4
          · exact Or.inl h3
          · simp only [List.mem_singleton] at h4
            subst h4
            exact Or.inr (List.mem_cons_self _ _)
        · exact Or.inr (List.mem_cons_of_mem _ h2)
      | err box e =>
        rw [drain_loop_err box e rest st hf2] at h
        by_cases hd : st.downloaded = 0
        · rw [if_pos hd] at h
          exact Or.inl h
        · rw [if_neg hd] at h
          rcases ih (i + 1) st b h with h1 | h2
          · exact Or.inl h1
          · exact Or.inr (List.mem_cons_of_mem _ h2)

/-- A drain whose cancellation flag is never set cannot report a cancelled
outcome. -/
theorem drain_loop_no_cancel :
    ∀ (results : List TileResult) (i : Nat) (st : LoopState),
      (drain_loop (fun _ => false) results i st).2 ≠ Outcome.cancelled := by
  intro results
  induction results with
  | nil => intro i st; simp [drain_loop_nil]
  | cons r rest ih =>
    intro i st
    cases r with
    | ok box =>
      rw [drain_loop_ok box rest st rfl]
      exact ih (i + 1) _
    | err box e =>
      rw [drain_loop_err box e rest st rfl]
      by_cases hd : st.downloaded = 0
      · rw [if_pos hd]
        simp
      · rw [if_neg hd]
        exact ih (i + 1) st

theorem scaled_dim_cast (A area t : Nat) :
    scaled_dim (A : Int) (area : Int) (t : Int) = (nat_scaled A area t : Int) := by
  unfold scaled_dim nat_scaled
  rw [if_neg (by simp)]
  simp [Int.natAbs_ofNat]

theorem nat_scaled_sq_le {area : Nat} (ha : 0 < area) (A t : Nat) :
    nat_scaled A area t * nat_scaled A area t * area ≤ t * t * A := by
  have h1 : nat_scaled A area t * nat_scaled A area t ≤ t * t * A / area :=
    Nat.sqrt_le _
  exact (Nat.le_div_iff_mul_le ha).mp h1

theorem nat_scaled_sq_gt {area : Nat} (ha : 0 < area) (A t : Nat) :
    t * t * A < (nat_scaled A area t + 1) * (nat_scaled A area t + 1) * area := by
  have h2 : t * t * A / area < (nat_scaled A area t + 1) * (nat_scaled A area t + 1) :=
    Nat.lt_succ_sqrt _
  exact (Nat.div_lt_iff_lt_mul ha).mp h2

theorem sq_le_of_sq_le {a b : Nat} (h : a * a ≤ b * b) : a ≤ b := by
  by_contra hc
  push_neg at hc
  exact absurd h (Nat.not_le_of_lt (Nat.mul_self_lt_mul_self hc))

theorem sq_lt_of_sq_lt {a b : Nat} (h : a * a < b * b) : a < b := by
  by_contra hc
  push_neg at hc
  exact absurd h (Nat.not_lt_of_le (Nat.mul_self_le_mul_self hc))

/-- When neither clamped dimension hits the 1-pixel floor, the clamped tile
fits the server budget. -/
theorem nat_scaled_area_le {A tw th : Nat} (htw : 0 < tw) (hth : 0 < th) :
    nat_scaled A (tw * th) tw * nat_scaled A (tw * th) th ≤ A := by
  have ha : 0 < tw * th := Nat.mul_pos htw hth
  have h1 := nat_scaled_sq_le ha A tw
  have h2 := nat_scaled_sq_le ha A th
  set w := nat_scaled A (tw * th) tw with hw
  set h := nat_scaled A (tw * th) th with hh
  have h3 : (w * h) * (w * h) * ((tw * th) * (tw * th)) ≤
      (A * A) * ((tw * th) * (tw * th)) := by
    calc (w * h) * (w * h) * ((tw * th) * (tw * th))
        = (w * w * (tw * th)) * (h * h * (tw * th)) := by ring
    _ ≤ (tw * tw * A) * (th * th * A) := Nat.mul_le_mul h1 h2
    _ = (A * A) * ((tw * th) * (tw * th)) := by ring
  have h4 : (w * h) * (w * h) ≤ A * A :=
    Nat.le_of_mul_le_mul_right h3 (Nat.mul_pos ha ha)
  exact sq_le_of_sq_le h4

/-- The clamp preserves the tile aspect ratio up to one rounding unit:
`w' / h'` differs from `tw / th` by less than one unit of the denominators. -/
theorem nat_scaled_ratio {A tw th : Nat} (htw : 0 < tw) (hth : 0 < th) :
    nat_scaled A (tw * th) tw * th < tw * (nat_scaled A (tw * th) th + 1) := by
  have ha : 0 < tw * th := Nat.mul_pos htw hth
  have h1 := nat_scaled_sq_le ha A tw
  have h2 := nat_scaled_sq_gt ha A th
  set w := nat_scaled A (tw * th) tw with hw
  set h := nat_scaled A (tw * th) th with hh
  have h3 : (w * th) * (w * th) * (tw * th) < (tw * (h + 1)) * (tw * (h + 1)) * (tw * th) := by
    calc (w * th) * (w * th) * (tw * th)
        = (w * w * (tw * th)) * (th * th) := by ring
    _ ≤ (tw * tw * A) * (th * th) := Nat.mul_le_mul_right _ h1
    _ = (th * th * A) * (tw * tw) := by ring
    _ < ((h + 1) * (h + 1) * (tw * th)) * (tw * tw) :=
        Nat.mul_lt_mul_of_lt_of_le h2 (Nat.le_refl _) (Nat.mul_pos htw htw)
    _ = (tw * (h + 1)) * (tw * (h + 1)) * (tw * th) := by ring
  have h4 : (w * th) * (w * th) < (tw * (h + 1)) * (tw * (h + 1)) :=
    Nat.lt_of_mul_lt_mul_right h3
  exact sq_lt_of_sq_lt h4

theorem mem_build_region_urls {s : String} {width height tile_w tile_h : Nat}
    (hw : 0 < tile_w) (hh : 0 < tile_h) (r : String × Box) :
    r ∈ build_region_urls s width height tile_w tile_h ↔
      ∃ i j, i < ceil_div width tile_w ∧ j < ceil_div height tile_h ∧
        r = (region_url s (i * tile_w) (j * tile_h)
               (min tile_w (width - i * tile_w)) (min tile_h (height - j * tile_h)),
             (i * tile_w, j * tile_h, min tile_w (width - i * tile_w),
              min tile_h (height - j * tile_h))) := by
  rw [build_region_urls_eq s width height tile_w tile_h hw hh]
  simp only [List.mem_flatMap, List.mem_map, List.mem_range]
  constructor
  · rintro ⟨j, hj, i, hi, rfl⟩
    exact ⟨i, j, hi, hj, rfl⟩
  · rintro ⟨i, j, hi, hj, rfl⟩
    exact ⟨j, hj, i, hi, rfl⟩

/-- A pixel covered by a planner region lies inside the image, and the region
is the one whose grid indices are `px / tile_w` and `py / tile_h`. -/
theorem planner_mem_cover_eq {s : String} {width height tile_w tile_h : Nat}
    (hw : 0 < tile_w) (hh : 0 < tile_h) {r : String × Box}
    (hr : r ∈ build_region_urls s width height tile_w tile_h)
    {px py : Nat} (hin : in_region r.2 px py) :
    px < width ∧ py < height ∧
      r = (region_url s (px / tile_w * tile_w) (py / tile_h * tile_h)
             (min tile_w (width - px / tile_w * tile_w))
             (min tile_h (height - py / tile_h * tile_h)),
           (px / tile_w * tile_w, py / tile_h * tile_h,
            min tile_w (width - px / tile_w * tile_w),
            min tile_h (height - py / tile_h * tile_h))) := by
  rcases (mem_build_region_urls hw hh r).mp hr with ⟨i, j, hi, hj, rfl⟩
  simp only [in_region] at hin
  obtain ⟨ha, hb, hc, hd⟩ := hin
  have hiw : i * tile_w < width := (lt_ceil_div_iff hw i width).mp hi
  have hjh : j * tile_h < height := (lt_ceil_div_iff hh j height).mp hj
  have hm1 : min tile_w (width - i * tile_w) ≤ width - i * tile_w := Nat.min_le_right _ _
  have hm2 : min tile_w (width - i * tile_w) ≤ tile_w := Nat.min_le_left _ _
  have hm3 : min tile_h (height - j * tile_h) ≤ height - j * tile_h := Nat.min_le_right _ _
  have hm4 : min tile_h (height - j * tile_h) ≤ tile_h := Nat.min_le_left _ _
  have hpx : px < width := by omega
  have hpy : py < height := by omega
  have hieq : i = px / tile_w := eq_div_of_interval hw ha (by omega)
  have hjeq : j = py / tile_h := eq_div_of_interval hh hc (by omega)
  subst hieq
  subst hjeq
  exact ⟨hpx, hpy, rfl⟩

/-- Every in-image pixel is covered by exactly one planner region. -/
theorem planner_cover_unique {s : String} {width height tile_w tile_h : Nat}
    (hw : 0 < tile_w) (hh : 0 < tile_h) (px py : Nat)
    (hx : px < width) (hy : py < height) :
    ∃! r, r ∈ build_region_urls s width height tile_w tile_h ∧ in_region r.2 px py := by
  have h1 := div_mul_interval hw px
  have h2 := div_mul_interval hh py
  have hc1 : px / tile_w * tile_w = tile_w * (px / tile_w) := Nat.mul_comm _ _
  have hc2 : py / tile_h * tile_h = tile_h * (py / tile_h) := Nat.mul_comm _ _
  refine ⟨(region_url s (px / tile_w * tile_w) (py / tile_h * tile_h)
             (min tile_w (width - px / tile_w * tile_w))
             (min tile_h (height - py / tile_h * tile_h)),
           (px / tile_w * tile_w, py / tile_h * tile_h,
            min tile_w (width - px / tile_w * tile_w),
            min tile_h (height - py / tile_h * tile_h))), ⟨?_, ?_⟩, ?_⟩
  · apply (mem_build_region_urls hw hh _).mpr
    refine ⟨px / tile_w, py / tile_h, ?_, ?_, rfl⟩
    · rw [lt_ceil_div_iff hw]
      omega
    · rw [lt_ceil_div_iff hh]
      omega
  · simp only [in_region]
    refine ⟨by omega, by omega, by omega, by omega⟩
  · rintro r' ⟨hr', hin'⟩
    exact (planner_mem_cover_eq hw hh hr' hin').2.2

theorem length_build_region_urls {s : String} {width height tile_w tile_h : Nat}
    (hw : 0 < tile_w) (hh : 0 < tile_h) :
    (build_region_urls s width height tile_w tile_h).length =
      ceil_div width tile_w * ceil_div height tile_h := by
  rw [build_region_urls_eq s width height tile_w tile_h hw hh]
  rw [length_flatMap_const _ (ceil_div width tile_w) _
    (fun a _ => by rw [List.length_map, List.length_range])]
  rw [List.length_range]
  exact Nat.mul_comm _ _

theorem sfListOf_eq {t : TileDict} {l : List Int} (h : sfListOf t = some l) :
    pyOr t.scaleFactors (JVal.list []) = JVal.list l := by
  unfold sfListOf at h
  rcases hm : pyOr t.scaleFactors (.list []) with n | s | l'
  · rw [hm] at h; simp at h
  · rw [hm] at h; simp at h
  · rw [hm] at h
    simp only [Option.some.injEq] at h
    rw [h]

theorem first_scale1_cons_hit {t : TileDict} {l : List Int} (ts : List TileDict)
    (h : sfListOf t = some l) (h1 : (1 : Int) ∈ l) :
    first_scale1 (t :: ts) = .ok (some t) := by
  simp only [first_scale1, sfListOf_eq h]
  rw [if_pos h1]

theorem first_scale1_cons_miss {t : TileDict} {l : List Int} (ts : List TileDict)
    (h : sfListOf t = some l) (h1 : (1 : Int) ∉ l) :
    first_scale1 (t :: ts) = first_scale1 ts := by
  simp only [first_scale1, sfListOf_eq h]
  rw [if_neg h1]

/-- The selection loop skips every leading spec whose scale factors lack `1`. -/
theorem first_scale1_append_skip :
    ∀ (l1 l2 : List TileDict),
      (∀ t' ∈ l1, ∃ sl, sfListOf t' = some sl ∧ (1 : Int) ∉ sl) →
      first_scale1 (l1 ++ l2) = first_scale1 l2 := by
  intro l1
  induction l1 with
  | nil => intro l2 _; rfl
  | cons t ts ih =>
    intro l2 h
    rcases h t (List.mem_cons_self _ _) with ⟨sl, hsl, hmem⟩
    rw [List.cons_append, first_scale1_cons_miss _ hsl hmem]
    exact ih l2 fun t' ht' => h t' (List.mem_cons_of_mem _ ht')

theorem first_scale1_all_miss (ts : List TileDict)
    (h : ∀ t' ∈ ts, ∃ sl, sfListOf t' = some sl ∧ (1 : Int) ∉ sl) :
    first_scale1 ts = .ok none := by
  have := first_scale1_append_skip ts [] h
  rwa [List.append_nil] at this

theorem get_tile_spec_cons (t0 : TileDict) (rest : List TileDict)
    (c : Option Int) :
    get_tile_spec (t0 :: rest) c =
      match first_scale1 (t0 :: rest) with
      | .error e => .error e
      | .ok chosen? =>
        resolve_dims (match chosen? with | some t => t | none => t0) := rfl

theorem pyOr_num {a : Option JVal} {b : JVal}
    (ha : ∀ v, a = some v → ∃ n, v = JVal.num n) (hb : ∃ m, b = JVal.num m) :
    ∃ k, pyOr a b = JVal.num k := by
  cases a with
  | none => exact hb
  | some v =>
    rcases ha v rfl with ⟨n, rfl⟩
    show ∃ k, (if pyTruthy (JVal.num n) = true then JVal.num n else b) = JVal.num k
    by_cases h : pyTruthy (JVal.num n) = true
    · rw [if_pos h]
      exact ⟨n, rfl⟩
    · rw [if_neg h]
      exact hb

theorem wtile_sfListOf {t : TileDict} (h : WTile t) :
    ∃ sl, sfListOf t = some sl := by
  unfold sfListOf
  cases hsf : t.scaleFactors with
  | none => exact ⟨[], rfl⟩
  | some v =>
    rcases h.2.2.2.2.2 v hsf with ⟨l, rfl⟩
    simp only [pyOr]
    by_cases hv : pyTruthy (JVal.list l) = true
    · rw [if_pos hv]
      exact ⟨l, rfl⟩
    · rw [if_neg hv]
      exact ⟨[], rfl⟩

/-- A well-typed tile spec resolves without raising. -/
theorem resolve_dims_ok {t : TileDict} (h : WTile t) :
    ∃ out, resolve_dims t = .ok out := by
  obtain ⟨tw, htw⟩ := pyOr_num h.1 (pyOr_num h.2.1 ⟨512, rfl⟩)
  obtain ⟨th, hth⟩ := pyOr_num h.2.2.1 (pyOr_num h.2.2.2.1 ⟨tw, rfl⟩)
  obtain ⟨ov, hov⟩ := pyOr_num h.2.2.2.2.1 ⟨0, rfl⟩
  refine ⟨(tw, th, ov), ?_⟩
  unfold resolve_dims
  rw [htw]
  simp only [pyInt]
  rw [hth]
  simp only [pyInt]
  rw [hov]

theorem first_scale1_ok :
    ∀ ts : List TileDict, (∀ t ∈ ts, ∃ sl, sfListOf t = some sl) →
      ∃ ch, first_scale1 ts = .ok ch := by
  intro ts
  induction ts with
  | nil => intro _; exact ⟨none, rfl⟩
  | cons t rest ih =>
    intro h
    rcases h t (List.mem_cons_self _ _) with ⟨sl, hsl⟩
    by_cases h1 : (1 : Int) ∈ sl
    · exact ⟨some t, first_scale1_cons_hit rest hsl h1⟩
    · rw [first_scale1_cons_miss rest hsl h1]
      exact ih fun t' ht' => h t' (List.mem_cons_of_mem _ ht')

theorem first_scale1_mem :
    ∀ (ts : List TileDict) (t : TileDict), first_scale1 ts = .ok (some t) → t ∈ ts := by
  intro ts
  induction ts with
  | nil => intro t h; simp [first_scale1] at h
  | cons t' rest ih =>
    intro t h
    rcases hm : pyOr t'.scaleFactors (.list []) with n | s | l
    · simp only [first_scale1, hm] at h
      simp at h
    · simp only [first_scale1, hm] at h
      simp at h
    · simp only [first_scale1, hm] at h
      by_cases h1 : (1 : Int) ∈ l
      · rw [if_pos h1] at h
        simp only [Except.ok.injEq, Option.some.injEq] at h
        subst h
        exact List.mem_cons_self _ _
      · rw [if_neg h1] at h
        exact List.mem_cons_of_mem _ (ih t h)

/-- The geometry resolver cannot raise on a descriptor whose advertised tile
specs are well-typed. -/
theorem get_tile_spec_ok (tiles : List TileDict) (c : Option Int)
    (h : ∀ t ∈ tiles, WTile t) :
    ∃ out, get_tile_spec tiles c = .ok out := by
  cases tiles with
  | nil => exact ⟨_, rfl⟩
  | cons t0 rest =>
    obtain ⟨ch, hch⟩ := first_scale1_ok (t0 :: rest)
      (fun t ht => wtile_sfListOf (h t ht))
    rw [get_tile_spec_cons, hch]
    cases ch with
    | some t => exact resolve_dims_ok (h t (first_scale1_mem _ t hch))
    | none => exact resolve_dims_ok (h t0 (List.mem_cons_self _ _))

/-- Components of a successful resolution: each field of the result is the
coercion of its own fallback chain. -/
theorem resolve_dims_parts {t : TileDict} {tw th ov : Int}
    (hok : resolve_dims t = .ok (tw, th, ov)) :
    pyInt (pyOr t.width (pyOr t.tileWidth (.num 512))) = .ok tw
    ∧ pyInt (pyOr t.height (pyOr t.tileHeight (.num tw))) = .ok th
    ∧ pyInt (pyOr t.overlap (.num 0)) = .ok ov := by
  unfold resolve_dims at hok
  split at hok
  · simp at hok
  · rename_i tw0 hW
    split at hok
    · simp at hok
    · rename_i th0 hH
      split at hok
      · simp at hok
      · rename_i ov0 hO
        simp only [Except.ok.injEq, Prod.mk.injEq] at hok
        obtain ⟨h1, h2, h3⟩ := hok
        subst h1
        subst h2
        subst h3
        exact ⟨hW, hH, hO⟩

/-- With `height` and the legacy `tileHeight` both absent, the resolved
height falls back to the resolved width. -/
theorem resolve_dims_height_fb {t : TileDict} (h1 : t.height = none)
    (h2 : t.tileHeight = none) {tw th ov : Int}
    (hok : resolve_dims t = .ok (tw, th, ov)) : th = tw := by
  have hp := (resolve_dims_parts hok).2.1
  rw [h1, h2] at hp
  simp only [pyOr, pyInt, Except.ok.injEq] at hp
  omega

/-- With `width` absent and a truthy legacy `tileWidth`, the resolved width is
the legacy value. -/
theorem resolve_dims_width_legacy {t : TileDict} {n : Int} (h1 : t.width = none)
    (h2 : t.tileWidth = some (JVal.num n)) (h3 : n ≠ 0) {tw th ov : Int}
    (hok : resolve_dims t = .ok (tw, th, ov)) : tw = n := by
  have hp := (resolve_dims_parts hok).1
  rw [h1, h2] at hp
  have htr : pyTruthy (JVal.num n) = true := by
    simp [pyTruthy, h3]
  simp only [pyOr, htr, if_true, pyInt, Except.ok.injEq] at hp
  omega

/-- With `overlap` absent, the resolved overlap is `0`. -/
theorem resolve_dims_overlap_default {t : TileDict} (h1 : t.overlap = none)
    {tw th ov : Int} (hok : resolve_dims t = .ok (tw, th, ov)) : ov = 0 := by
  have hp := (resolve_dims_parts hok).2.2
  rw [h1] at hp
  simp only [pyOr, pyInt, Except.ok.injEq] at hp
  omega

theorem respect_max_area_none (tile_w tile_h : Int) :
    respect_max_area none tile_w tile_h = .ok (tile_w, tile_h) := rfl

theorem respect_max_area_within {A tile_w tile_h : Int} (hA : A ≠ 0)
    (hle : tile_w * tile_h ≤ A) :
    respect_max_area (some A) tile_w tile_h = .ok (tile_w, tile_h) := by
  simp only [respect_max_area]
  rw [if_neg hA, if_pos hle]

theorem respect_max_area_clamp {A tile_w tile_h : Int} (hA : A ≠ 0)
    (hgt : ¬ tile_w * tile_h ≤ A) (hz : ¬ tile_w * tile_h = 0)
    (hs : ¬ A * (tile_w * tile_h) < 0) :
    respect_max_area (some A) tile_w tile_h =
      .ok (max 1 (scaled_dim A (tile_w * tile_h) tile_w),
           max 1 (scaled_dim A (tile_w * tile_h) tile_h)) := by
  simp only [respect_max_area]
  rw [if_neg hA, if_neg hgt, if_neg hz, if_neg hs]

/-- Whatever branch the clamp takes, positive inputs yield positive outputs:
the pass-through branches preserve the inputs and the clamp branch floors at
one pixel. -/
theorem respect_max_area_pos {ma : Option Int} {tile_w tile_h w2 h2 : Int}
    (htw : 1 ≤ tile_w) (hth : 1 ≤ tile_h)
    (hok : respect_max_area ma tile_w tile_h = .ok (w2, h2)) :
    1 ≤ w2 ∧ 1 ≤ h2 := by
  cases ma with
  | none =>
    rw [respect_max_area_none] at hok
    simp only [Except.ok.injEq, Prod.mk.injEq] at hok
    omega
  | some A =>
    simp only [respect_max_area] at hok
    split_ifs at hok with hA hle hz hs
    · simp only [Except.ok.injEq, Prod.mk.injEq] at hok
      omega
    · simp only [Except.ok.injEq, Prod.mk.injEq] at hok
      omega
    · simp only [Except.ok.injEq, Prod.mk.injEq] at hok
      obtain ⟨hw, hh⟩ := hok
      constructor
      · rw [← hw]
        exact le_max_left _ _
      · rw [← hh]
        exact le_max_left _ _

/-- Justification of the exact-real model of `int(t * math.sqrt(A / area))`:
`nat_scaled A area t` is precisely the floor of `t * sqrt (A / area)` over the
reals. -/
theorem nat_scaled_eq_floor (A area t : Nat) (ha : 0 < area) :
    (nat_scaled A area t : ℝ) ≤ (t : ℝ) * Real.sqrt ((A : ℝ) / (area : ℝ))
    ∧ (t : ℝ) * Real.sqrt ((A : ℝ) / (area : ℝ)) < (nat_scaled A area t : ℝ) + 1 := by
  have har : (0 : ℝ) < (area : ℝ) := by exact_mod_cast ha
  have hts : (t : ℝ) * Real.sqrt ((A : ℝ) / (area : ℝ))
      = Real.sqrt ((t : ℝ) ^ 2 * ((A : ℝ) / (area : ℝ))) := by
    rw [Real.sqrt_mul (by positivity), Real.sqrt_sq (by positivity)]
  have heq : (t : ℝ) ^ 2 * ((A : ℝ) / (area : ℝ))
      = ((t : ℝ) ^ 2 * (A : ℝ)) / (area : ℝ) := by
    ring
  constructor
  · rw [hts, Real.le_sqrt (by positivity) (by positivity), heq, le_div_iff₀ har,
      pow_two, pow_two]
    exact_mod_cast nat_scaled_sq_le ha A t
  · rw [hts, Real.sqrt_lt' (by positivity), heq, div_lt_iff₀ har, pow_two, pow_two]
    exact_mod_cast nat_scaled_sq_gt ha A t

/-! ## The claims -/

/-- C1: for every positive image width and height and positive tile steps, the
Region Planner produces pairwise-disjoint regions whose union is exactly
`[0,width) × [0,height)`, whose count is
`ceil(width/tile_w) * ceil(height/tile_h)`, each region's extent being the
minimum of the step and the remaining distance to the image edge, in
row-major order. -/
theorem build_region_urls_correct (s : String) (width height tile_w tile_h : Nat)
    (_hW : 0 < width) (_hH : 0 < height) (hw : 0 < tile_w) (hh : 0 < tile_h) :
    region_planner_spec s width height tile_w tile_h := by
  refine ⟨build_region_urls_eq s width height tile_w tile_h hw hh,
    length_build_region_urls hw hh,
    fun px py hx hy => planner_cover_unique hw hh px py hx hy,
    fun r hr px py hin => ⟨(planner_mem_cover_eq hw hh hr hin).1,
      (planner_mem_cover_eq hw hh hr hin).2.1⟩, ?_, ?_⟩
  · rintro r1 h1 r2 h2 hne px py ⟨hin1, hin2⟩
    have e1 := (planner_mem_cover_eq hw hh h1 hin1).2.2
    have e2 := (planner_mem_cover_eq hw hh h2 hin2).2.2
    exact hne (e1.trans e2.symm)
  · intro r hr
    rcases (mem_build_region_urls hw hh r).mp hr with ⟨i, j, hi, hj, rfl⟩
    exact ⟨rfl, rfl⟩

/-- C1 witness: the design document's concrete scenario, a 2000x1500 image in
1024-pixel tiles. -/
theorem build_region_urls_correct_witness :
    0 < 2000 ∧ 0 < 1500 ∧ 0 < 1024 ∧
      region_planner_spec "https://example.org/iiif/img" 2000 1500 1024 1024 :=
  ⟨by decide, by decide, by decide,
    build_region_urls_correct "https://example.org/iiif/img" 2000 1500 1024 1024
      (by decide) (by decide) (by decide) (by decide)⟩

/-- C2: in the drain loop (cancel flag unset at the check), a tile failure with
zero prior successes aborts the run by re-raising the error; a failure after at
least one success leaves the loop state exactly as it was and continues with
the remaining results; and a failed region's box is never pasted unless it
separately arrives as a successful result. -/
theorem drain_loop_failure_policy (flag : Nat → Bool) (box : Box) (e : String)
    (rest : List TileResult) (i : Nat) (st : LoopState) (hf : flag i = false) :
    (st.downloaded = 0 →
      drain_loop flag (.err box e :: rest) i st = (st, .failed e))
    ∧ (0 < st.downloaded →
      drain_loop flag (.err box e :: rest) i st = drain_loop flag rest (i + 1) st)
    ∧ (∀ b ∈ (drain_loop flag (.err box e :: rest) i st).1.pasted,
        b ∈ st.pasted ∨ TileResult.ok b ∈ rest) := by
  refine ⟨?_, ?_, ?_⟩
  · intro hd
    rw [drain_loop_err box e rest st hf, if_pos hd]
  · intro hd
    rw [drain_loop_err box e rest st hf, if_neg (by omega)]
  · intro b hb
    rcases drain_loop_pasted_sub flag _ i st b hb with h1 | h2
    · exact Or.inl h1
    · rcases List.mem_cons.mp h2 with h3 | h4
      · simp at h3
      · exact Or.inr h4

/-- C2 witness: a first-result failure with no prior success aborts with the
tile's error. -/
theorem drain_loop_failure_policy_witness :
    (fun _ : Nat => false) 0 = false ∧
    drain_loop (fun _ => false) [TileResult.err (0, 0, 1, 1) "boom"] 0 ⟨[], 0⟩
      = (⟨[], 0⟩, Outcome.failed "boom") :=
  ⟨rfl, (drain_loop_failure_policy (fun _ => false) (0, 0, 1, 1) "boom" [] 0
    ⟨[], 0⟩ rfl).1 rfl⟩

/-- C3 counterexample: with `maxArea = 2` and a naive `1 x 5` tile, the scaled
width floors at one pixel and the clamp returns `1 x 3`, whose area `3`
exceeds `maxArea = 2` — the claimed unconditional bound
`resolved area ≤ maxArea` fails once the 1-pixel floor engages. -/
theorem respect_max_area_exceeds_budget :
    respect_max_area (some 2) 1 5 = .ok (1, 3) ∧ ¬ ((1 : Int) * 3 ≤ 2) := by
  have hsq10 : Nat.sqrt 10 = 3 := (Nat.eq_sqrt.mpr (by decide)).symm
  have e1 : scaled_dim 2 (1 * 5) 1 = 0 := by
    unfold scaled_dim
    norm_num
  have e5 : scaled_dim 2 (1 * 5) 5 = 3 := by
    unfold scaled_dim
    norm_num [hsq10]
  constructor
  · rw [respect_max_area_clamp (by decide) (by decide) (by decide) (by decide),
      e1, e5]
    norm_num
  · decide

/-- C3 amended: when the naive area exceeds a positive `maxArea` and neither
scaled dimension is clamped up by the 1-pixel floor, the clamp scales both
dimensions by `sqrt (maxArea / area)` rounded down, the clamped area is
`≤ maxArea`, and the width/height ratio is preserved within one rounding unit;
when the naive area does not exceed `maxArea`, or `maxArea` is absent, the
dimensions pass through unchanged. -/
theorem respect_max_area_clamped (A tw th : Nat) (hA : 0 < A) (htw : 0 < tw)
    (hth : 0 < th) (hover : A < tw * th)
    (h1 : 1 ≤ nat_scaled A (tw * th) tw) (h2 : 1 ≤ nat_scaled A (tw * th) th) :
    respect_max_area (some (A : Int)) (tw : Int) (th : Int)
        = .ok ((nat_scaled A (tw * th) tw : Int), (nat_scaled A (tw * th) th : Int))
    ∧ nat_scaled A (tw * th) tw * nat_scaled A (tw * th) th ≤ A
    ∧ nat_scaled A (tw * th) tw * th < tw * (nat_scaled A (tw * th) th + 1)
    ∧ nat_scaled A (tw * th) th * tw < th * (nat_scaled A (tw * th) tw + 1)
    ∧ (∀ tw2 th2 : Int, tw2 * th2 ≤ (A : Int) →
        respect_max_area (some (A : Int)) tw2 th2 = .ok (tw2, th2))
    ∧ (∀ tw2 th2 : Int, respect_max_area none tw2 th2 = .ok (tw2, th2)) := by
  have hAz : (A : Int) ≠ 0 := by
    exact_mod_cast hA.ne'
  have harea : (tw : Int) * (th : Int) = ((tw * th : Nat) : Int) := by
    push_cast
    ring
  have hratio2 : nat_scaled A (th * tw) th * tw < th * (nat_scaled A (th * tw) tw + 1) :=
    nat_scaled_ratio hth htw
  refine ⟨?_, nat_scaled_area_le htw hth, nat_scaled_ratio htw hth, ?_,
    fun tw2 th2 hle => respect_max_area_within hAz hle,
    fun tw2 th2 => respect_max_area_none tw2 th2⟩
  · rw [respect_max_area_clamp hAz ?hgt ?hz ?hs]
    case hgt =>
      rw [harea]
      intro hc
      exact absurd (by exact_mod_cast hc : tw * th ≤ A) (by omega)
    case hz =>
      rw [harea]
      have : 0 < tw * th := Nat.mul_pos htw hth
      intro hc
      exact absurd (by exact_mod_cast hc : tw * th = 0) (by omega)
    case hs =>
      rw [harea]
      intro hc
      have : (0 : Int) ≤ (A : Nat) * ((tw * th : Nat) : Int) := by positivity
      omega
    rw [harea, scaled_dim_cast A (tw * th) tw, scaled_dim_cast A (tw * th) th]
    rw [max_eq_right (by exact_mod_cast h1), max_eq_right (by exact_mod_cast h2)]
  · rwa [Nat.mul_comm th tw] at hratio2

/-- C3 witness: `maxArea = 2` with a naive `2 x 2` tile clamps to `1 x 1`,
whose area fits the budget. -/
theorem respect_max_area_clamped_witness :
    0 < (2 : Nat) ∧ 2 < 2 * 2 ∧ 1 ≤ nat_scaled 2 (2 * 2) 2 ∧
      nat_scaled 2 (2 * 2) 2 * nat_scaled 2 (2 * 2) 2 ≤ 2 := by
  have hsq2 : Nat.sqrt 2 = 1 := (Nat.eq_sqrt.mpr (by decide)).symm
  have hns : nat_scaled 2 (2 * 2) 2 = 1 := by
    unfold nat_scaled
    norm_num [hsq2]
  refine ⟨by decide, by decide, by rw [hns], ?_⟩
  exact (respect_max_area_clamped 2 2 2 (by decide) (by decide) (by decide)
      (by decide) (by rw [hns]) (by rw [hns])).2.1

/-- C4: once the cancellation flag reads true at a drain check, the loop stops
accepting results: the loop state — hence the canvas — is left exactly as it
is no matter which results are still pending (they are discarded), and the
run's outcome is cancelled, which is distinct from every failed outcome and
from the saved outcome, so no output file is written. -/
theorem drain_loop_cancelled (flag : Nat → Bool) (results : List TileResult)
    (i : Nat) (st : LoopState) (hf : flag i = true) :
    drain_loop flag results i st = (st, .cancelled)
    ∧ (∀ e, Outcome.cancelled ≠ Outcome.failed e)
    ∧ Outcome.cancelled ≠ Outcome.saved := by
  refine ⟨?_, fun e => by simp, by simp⟩
  cases results with
  | nil =>
    rw [drain_loop_nil, if_pos hf]
  | cons r rest =>
    exact drain_loop_flagged r rest st hf

/-- C4 witness: with the flag raised, a pending successful result is discarded
and the outcome is cancelled. -/
theorem drain_loop_cancelled_witness :
    (fun _ : Nat => true) 0 = true ∧
    drain_loop (fun _ => true) [TileResult.ok (0, 0, 1, 1)] 0 ⟨[], 0⟩
      = (⟨[], 0⟩, Outcome.cancelled) :=
  ⟨rfl, (drain_loop_cancelled (fun _ => true) [TileResult.ok (0, 0, 1, 1)] 0
    ⟨[], 0⟩ rfl).1⟩

/-- C5 counterexample: the normalizer is not idempotent. On
`"a/info.json/"` the first pass only strips the trailing separator (the
suffix check runs before `rstrip`), leaving `"a/info.json"`; a second pass
then strips the descriptor suffix, giving `"a"`. -/
theorem normalize_url_not_idem :
    normalize_url (normalize_url ("a/info.json/".toList)) ≠
      normalize_url ("a/info.json/".toList) := by
  decide

/-- C5 amended: the normalizer strips the query/fragment, at most one trailing
`/info.json` suffix, then all trailing separators; its output never ends in a
separator and it never fails; it is idempotent on exactly those inputs whose
normal form does not itself end in `/info.json` (stripping separators can
expose such a suffix, which only a second pass would remove). -/
theorem normalize_url_normal_form (u : List Char) :
    (normalize_url u).getLast? ≠ some '/'
    ∧ (info_suffix.isSuffixOf (normalize_url u) = false →
        normalize_url (normalize_url u) = normalize_url u) :=
  ⟨normalize_url_getLast? u, normalize_url_idem_of_no_suffix u⟩

/-- C5 witness: a URL with a query string normalizes to a fixed point. -/
theorem normalize_url_normal_form_witness :
    info_suffix.isSuffixOf (normalize_url ("https://e/i?fmt=1".toList)) = false
    ∧ normalize_url (normalize_url ("https://e/i?fmt=1".toList))
        = normalize_url ("https://e/i?fmt=1".toList) :=
  ⟨by decide, (normalize_url_normal_form ("https://e/i?fmt=1".toList)).2 (by decide)⟩

/-- C6 counterexample: a descriptor declaring `width = 0` — not a positive
integer — passes the dimension coercion with no error of any kind: the code
performs no positivity validation, contradicting the claim that non-positive
required fields fail with a format error. -/
theorem get_dims_accepts_nonpositive :
    get_dims ⟨some (JVal.num 0), some (JVal.num 5)⟩ = .ok (0, 5)
    ∧ ¬ (0 < (0 : Int)) :=
  ⟨rfl, by decide⟩

/-- C6 amended: a missing `width` or `height` raises `KeyError` and a
non-coercible one raises `ValueError`/`TypeError` — all distinct from the
request-level error of the descriptor fetch — but any coercible values,
positive or not, are accepted unchanged: positivity is not validated. -/
theorem get_dims_validation (info : InfoDict) :
    (info.width = none → get_dims info = .error .keyError)
    ∧ (∀ n, info.width = some (JVal.num n) → info.height = none →
        get_dims info = .error .keyError)
    ∧ (∀ l, info.width = some (JVal.list l) → get_dims info = .error .typeError)
    ∧ (∀ s2, info.width = some (JVal.str s2) → py_int_of_str s2 = none →
        get_dims info = .error .valueError)
    ∧ (∀ n m, info.width = some (JVal.num n) → info.height = some (JVal.num m) →
        get_dims info = .ok (n, m))
    ∧ (PyError.keyError ≠ PyError.requestError
       ∧ PyError.valueError ≠ PyError.requestError
       ∧ PyError.typeError ≠ PyError.requestError) := by
  refine ⟨?_, ?_, ?_, ?_, ?_, by decide, by decide, by decide⟩
  · intro h
    simp [get_dims, py_item, h]
  · intro n h1 h2
    simp [get_dims, py_item, pyInt, h1, h2]
  · intro l h1
    simp [get_dims, py_item, pyInt, h1]
  · intro s2 h1 h2
    simp [get_dims, py_item, pyInt, h1, h2]
  · intro n m h1 h2
    simp [get_dims, py_item, pyInt, h1, h2]

/-- C6 witness: numeric width and height are coerced and returned. -/
theorem get_dims_validation_witness :
    get_dims ⟨some (JVal.num 100), some (JVal.num 50)⟩ = .ok (100, 50) :=
  (get_dims_validation ⟨some (JVal.num 100), some (JVal.num 50)⟩).2.2.2.2.1
    100 50 rfl rfl

/-- C7 counterexample: a descriptor advertising one tile spec whose `width`
field holds the non-numeric string `"abc"` makes the resolver raise
`ValueError` (Python `int("abc")`): the step is not total on validated
descriptors — only specs with missing fields fall back to defaults; malformed
present fields abort the run. -/
theorem get_tile_spec_raises_on_malformed :
    get_tile_spec [⟨some (JVal.str "abc"), none, none, none, none, none⟩] none
      = .error .valueError := rfl

/-- C7 amended: with no advertised tile specs, the resolver returns the user
preference (1024 when absent or falsy) for both dimensions with overlap 0;
with advertised specs, the first spec whose scale-factor set contains 1 is
selected, else the first spec; the resolved width falls back to the legacy
`tileWidth` field, the resolved height falls back (after the legacy
`tileHeight`) to the resolved width, and overlap defaults to 0; the step
cannot raise when every advertised spec's present fields are well-typed —
missing fields fall back to defaults. -/
theorem get_tile_spec_resolution :
    (get_tile_spec [] none = .ok (1024, 1024, 0))
    ∧ (∀ n : Int, n ≠ 0 → get_tile_spec [] (some n) = .ok (n, n, 0))
    ∧ (∀ (l1 : List TileDict) (t : TileDict) (l2 : List TileDict)
         (c : Option Int) (sl : List Int),
        (∀ t2 ∈ l1, ∃ sl2, sfListOf t2 = some sl2 ∧ (1 : Int) ∉ sl2) →
        sfListOf t = some sl → (1 : Int) ∈ sl →
        get_tile_spec (l1 ++ t :: l2) c = resolve_dims t)
    ∧ (∀ (t0 : TileDict) (rest : List TileDict) (c : Option Int),
        (∀ t2 ∈ t0 :: rest, ∃ sl2, sfListOf t2 = some sl2 ∧ (1 : Int) ∉ sl2) →
        get_tile_spec (t0 :: rest) c = resolve_dims t0)
    ∧ (∀ (t : TileDict) (n tw th ov : Int), t.width = none →
        t.tileWidth = some (JVal.num n) → n ≠ 0 →
        resolve_dims t = .ok (tw, th, ov) → tw = n)
    ∧ (∀ (t : TileDict) (tw th ov : Int), t.height = none → t.tileHeight = none →
        resolve_dims t = .ok (tw, th, ov) → th = tw)
    ∧ (∀ (t : TileDict) (tw th ov : Int), t.overlap = none →
        resolve_dims t = .ok (tw, th, ov) → ov = 0)
    ∧ (∀ (tiles : List TileDict) (c : Option Int), (∀ t ∈ tiles, WTile t) →
        ∃ out, get_tile_spec tiles c = .ok out) := by
  refine ⟨rfl, ?_, ?_, ?_,
    fun t n tw th ov h1 h2 h3 hok => resolve_dims_width_legacy h1 h2 h3 hok,
    fun t tw th ov h1 h2 hok => resolve_dims_height_fb h1 h2 hok,
    fun t tw th ov h1 hok => resolve_dims_overlap_default h1 hok,
    fun tiles c h => get_tile_spec_ok tiles c h⟩
  · intro n hn
    simp [get_tile_spec, hn]
  · intro l1 t l2 c sl hskip hsl hmem
    cases l1 with
    | nil =>
      rw [List.nil_append, get_tile_spec_cons, first_scale1_cons_hit l2 hsl hmem]
    | cons t0 l1t =>
      rw [List.cons_append, get_tile_spec_cons]
      have hfs : first_scale1 (t0 :: (l1t ++ t :: l2)) = .ok (some t) := by
        have hsk := first_scale1_append_skip (t0 :: l1t) (t :: l2) hskip
        rw [List.cons_append] at hsk
        rw [hsk, first_scale1_cons_hit l2 hsl hmem]
      rw [hfs]
  · intro t0 rest c h
    rw [get_tile_spec_cons, first_scale1_all_miss (t0 :: rest) h]

/-- C7 witness: with no advertised specs, an explicit 512-pixel preference is
used for both dimensions with zero overlap. -/
theorem get_tile_spec_resolution_witness :
    (512 : Int) ≠ 0 ∧ get_tile_spec [] (some 512) = .ok (512, 512, 0) :=
  ⟨by decide, get_tile_spec_resolution.2.1 512 (by decide)⟩

/-- C8: when at least one tile spec is advertised, the resolved geometry is
identical for every user tile-size preference — the preference reaches only
the branch with no advertised specs. -/
theorem get_tile_spec_pref_independent (t0 : TileDict) (rest : List TileDict)
    (c1 c2 : Option Int) :
    get_tile_spec (t0 :: rest) c1 = get_tile_spec (t0 :: rest) c2 := rfl

/-- C9 counterexample: a descriptor advertising a tile width of `-5` flows
through geometry resolution unchanged — `get_tile_spec` returns `(-5, -5, 0)`
and `respect_max_area` (no `maxArea`) passes it through, so neither function
guarantees dimensions ≥ 1; on that reachable input the source's planner
loops, whose origins advance by the step, never terminate. -/
theorem planner_step_nonpositive_reachable :
    get_tile_spec [⟨some (JVal.num (-5)), none, none, none, none, none⟩] none
        = .ok (-5, -5, 0)
    ∧ respect_max_area none (-5) (-5) = .ok (-5, -5)
    ∧ ¬ (1 ≤ (-5 : Int)) :=
  ⟨rfl, rfl, by decide⟩

/-- C9 amended: whenever geometry resolution yields positive tile dimensions,
`respect_max_area` preserves positivity (its clamp branch floors at one pixel
and its pass-through branches return the positive inputs), and the planner
loops, each advancing its origin by a positive step, terminate with exactly
`ceil(limit/step)` iterations per axis; a non-positive advertised dimension,
however, reaches the planner unchanged and its loops do not terminate. -/
theorem planner_terminates_on_positive_steps :
    (∀ (ma : Option Int) (tw th w2 h2 : Int), 1 ≤ tw → 1 ≤ th →
        respect_max_area ma tw th = .ok (w2, h2) → 1 ≤ w2 ∧ 1 ≤ h2)
    ∧ (∀ limit step : Nat, 0 < step →
        (tile_steps limit step 0).length = ceil_div limit step)
    ∧ (∀ (s : String) (width height tile_w tile_h : Nat),
        0 < tile_w → 0 < tile_h →
        (build_region_urls s width height tile_w tile_h).length =
          ceil_div width tile_w * ceil_div height tile_h) := by
  refine ⟨fun ma tw th w2 h2 htw hth hok => respect_max_area_pos htw hth hok,
    ?_, fun s w h tw th hw hh => length_build_region_urls hw hh⟩
  intro limit step hs
  rw [tile_steps_eq hs limit 0, List.length_map, List.length_range, Nat.sub_zero]

/-- C9 witness: a 2000-pixel axis in steps of 1024 yields two planner
iterations. -/
theorem planner_terminates_on_positive_steps_witness :
    0 < 1024 ∧ (tile_steps 2000 1024 0).length = ceil_div 2000 1024 :=
  ⟨by decide, planner_terminates_on_positive_steps.2.1 2000 1024 (by decide)⟩

/-- C10: whenever `start_download` actually spawns a worker it has first
cleared the cancellation flag — even if a cancellation was requested earlier —
and a run whose flag is never raised can never report the cancelled outcome,
so a cancellation never carries over into a later run. -/
theorem start_download_clears_cancel (valid : Bool) (s : AppState)
    (h : (start_download valid s).2 = true) :
    (start_download valid s).1.cancel_flag = false
    ∧ ∀ (results : List TileResult) (i : Nat) (st : LoopState),
        (drain_loop (fun _ => false) results i st).2 ≠ .cancelled := by
  refine ⟨?_, fun results i st => drain_loop_no_cancel results i st⟩
  unfold start_download at h ⊢
  cases valid with
  | false => simp at h
  | true =>
    cases hd : s.is_downloading with
    | true => simp [hd] at h
    | false => simp [hd]

/-- C10 witness: starting after a cancelled run (flag still set, no run in
progress) spawns a worker with the flag cleared. -/
theorem start_download_clears_cancel_witness :
    (start_download true ⟨false, true⟩).2 = true
    ∧ (start_download true ⟨false, true⟩).1.cancel_flag = false :=
  ⟨rfl, (start_download_clears_cancel true ⟨false, true⟩ rfl).1⟩

end IIIF
